import Mathlib

/-
Verification of the goto URL-shortening service (src/goto/server.py).

The embedding below translates the pure core of the program:
  - `file_location`       (server.py lines 11-16, the path sharding scheme)
  - class `LRU`           (server.py lines 19-35, the bounded cache)
  - class `ContentHasher` (server.py lines 38-64, the content store)
  - the GET/POST handler logic of `CustomHTTPRequestHandler`
    (server.py lines 74-113), with the filesystem modelled as an
    association list from relative paths to byte contents, and the
    external `hashlib` digest provider modelled as a function from
    algorithm names to optional hex-digest functions.

Byte strings are modelled as `List Nat`.  Python's `OrderedDict` used by
`LRU` is modelled as an association list kept in recency order: the front
of the list is the oldest (least recently used) entry, the back the most
recently used, matching `move_to_end` / `popitem(last=False)`.
-/

set_option maxRecDepth 4000

namespace Goto

/-- Byte content (Python `bytes`), one `Nat` per byte. -/
abbrev Bytes := List Nat

/-- First-match association lookup, modelling Python dict / filesystem lookup. -/
def assocGet {α β : Type} [DecidableEq α] (k : α) : List (α × β) → Option β
  | [] => none
  | p :: rest => if p.1 = k then some p.2 else assocGet k rest

/-- Remove every entry with key `k`, modelling removal from a dict
(an `OrderedDict` holds each key at most once). -/
def assocErase {α β : Type} [DecidableEq α] (k : α) : List (α × β) → List (α × β)
  | [] => []
  | p :: rest => if p.1 = k then assocErase k rest else p :: assocErase k rest

/-- Python slicing `s[a:b]` on strings (clamping at the ends, like Python). -/
def pySlice (s : String) (a b : Nat) : String :=
  ((s.toList.drop a).take (b - a)).asString

/-- Python `range(start, stop, step)` as a list of indices (empty when
`stop ≤ start`, matching Python's behavior for an empty or negative range). -/
def pyRange (start stop step : Nat) : List Nat :=
  List.range' start ((stop - start + step - 1) / step) step

/-- `file_location` (server.py lines 11-16): builds the sharded relative path
`<algorithm>/l<length>/<digest[0:2]>/<digest[2:4]>/.../<digest>`, one
2-character shard per index `i` in `range(0, length - 2, 2)`.
A `Path` is modelled as its list of components. -/
def file_location (algorithm : String) (length : Nat) (hash_digest : String) : List String :=
  let path := [algorithm, "l" ++ toString length]
  let path := (pyRange 0 (length - 2) 2).foldl
    (fun p i => p ++ [pySlice hash_digest i (i + 2)]) path
  path ++ [hash_digest]

/-- The shard segments as the spec words describe them: a 2-character slice
`digest[i:i+2]` for each index `i = 0, 2, 4, ...` while `i < length - 2`. -/
def shardSegsSpec (length : Nat) (hash_digest : String) (i : Nat) : List String :=
  if i < length - 2 then pySlice hash_digest i (i + 2) :: shardSegsSpec length hash_digest (i + 2)
  else []
termination_by length - 2 - i
decreasing_by simp_wf; omega

/-- The `LRU` class (server.py lines 19-35).  `cache` is the `OrderedDict`
in recency order: front = least recently used, back = most recently used. -/
structure LRU where
  max_size : Nat
  cache : List (String × Bytes)
deriving DecidableEq

/-- `LRU.__contains__` (lines 24-25): `key in self.cache`, no recency update. -/
def LRU.contains (s : LRU) (k : String) : Bool :=
  (assocGet k s.cache).isSome

/-- `LRU.__getitem__` (lines 27-29): `move_to_end(key)` then return the value.
`move_to_end` raises `KeyError` on a missing key, modelled as `none`;
on a hit the entry moves to the most-recently-used end. -/
def LRU.getitem (s : LRU) (k : String) : Option (Bytes × LRU) :=
  match assocGet k s.cache with
  | some v => some (v, ⟨s.max_size, assocErase k s.cache ++ [(k, v)]⟩)
  | none => none

/-- `LRU.__setitem__` (lines 31-35): `self.cache[key] = value` followed by
`move_to_end(key)` leaves the entry at the most-recently-used end (whether the
key was fresh or overwritten); then `if len(self.cache) >= self.max_size:
self.cache.popitem(last=False)` drops the least-recently-used (front) entry. -/
def LRU.setitem (s : LRU) (k : String) (v : Bytes) : LRU :=
  let inserted := assocErase k s.cache ++ [(k, v)]
  ⟨s.max_size, if s.max_size ≤ inserted.length then inserted.drop 1 else inserted⟩

/-- Applying a sequence of `__setitem__` operations in order. -/
def LRU.applyPuts (s : LRU) (ps : List (String × Bytes)) : LRU :=
  ps.foldl (fun a p => a.setitem p.1 p.2) s

/-- Errors of the content store. -/
inductive GotoError where
  | unsupportedAlgorithm
deriving DecidableEq

/-- The external digest provider (`hashlib`): maps an algorithm name to
`some` hex-digest function when the name is recognized, `none` otherwise.
`hashlib.new(name)` raises exactly when the name is not recognized. -/
abbrev Provider := String → Option (Bytes → String)

/-- Configuration fields stored by `ContentHasher.__init__`
(server.py lines 39-49); `state_dir` is the root of the modelled filesystem
and is left implicit (disk paths are relative to it). -/
structure Config where
  hash_algorithm : String
  hash_length : Nat
  cache_size : Nat
deriving DecidableEq

/-- The filesystem under `state_dir`: relative path components to file bytes. -/
abbrev Disk := List (List String × Bytes)

/-- The mutable state of the store: the in-memory `LRU` cache and the disk. -/
structure StoreState where
  cache : LRU
  disk : Disk
deriving DecidableEq

/-- `ContentHasher.__init__` (server.py lines 39-49): stores the configuration
and creates an empty cache.  It performs no validation of the algorithm name,
so construction never fails; the initial disk is the (empty) state directory. -/
def ContentHasher.init (hash_algorithm : String) (hash_length : Nat) (cache_size : Nat) :
    Config × StoreState :=
  (⟨hash_algorithm, hash_length, cache_size⟩, ⟨⟨cache_size, []⟩, []⟩)

/-- `ContentHasher.hash` (server.py lines 51-54): `hashlib.new(algorithm)`
(raising `UnsupportedAlgorithm` when the provider does not recognize the
name), then `hexdigest()[: hash_length]`. -/
def ContentHasher.hash (provider : Provider) (cfg : Config) (content : Bytes) :
    Except GotoError String :=
  match provider cfg.hash_algorithm with
  | none => .error .unsupportedAlgorithm
  | some hexdigest => .ok (pySlice (hexdigest content) 0 cfg.hash_length)

/-- `file_path.write_bytes(content)`: overwrite the file at `p` with `c`
(`mkdir(parents=True, exist_ok=True)` needs no model for a path-keyed map). -/
def diskWrite (disk : Disk) (p : List String) (c : Bytes) : Disk :=
  (p, c) :: assocErase p disk

/-- `path.read_bytes()`: `some` bytes when the file exists, `none` for
`FileNotFoundError`. -/
def diskRead (disk : Disk) (p : List String) : Option Bytes :=
  assocGet p disk

/-- `ContentHasher.save` (server.py lines 56-64): hash the content, insert
`(digest, content)` into the cache, write the content at the sharded path. -/
def ContentHasher.save (provider : Provider) (cfg : Config) (s : StoreState) (content : Bytes) :
    Except GotoError (String × StoreState) :=
  match ContentHasher.hash provider cfg content with
  | .error e => .error e
  | .ok content_hash =>
      .ok (content_hash,
        ⟨s.cache.setitem content_hash content,
         diskWrite s.disk (file_location cfg.hash_algorithm cfg.hash_length content_hash) content⟩)

/-- The cache-then-disk read of `do_GET` (server.py lines 79-93): try the
cache (a hit promotes the entry); on `KeyError` read the sharded file and
backfill the cache; on `FileNotFoundError` fail with `none` (NotFound). -/
def load (cfg : Config) (s : StoreState) (content_id : String) : Option (Bytes × StoreState) :=
  match s.cache.getitem content_id with
  | some (content, cache') => some (content, ⟨cache', s.disk⟩)
  | none =>
      match diskRead s.disk (file_location cfg.hash_algorithm cfg.hash_length content_id) with
      | some content => some (content, ⟨s.cache.setitem content_id content, s.disk⟩)
      | none => none

/-- A GET response: status code, optional `Location` header (held as the raw
stored bytes, whose UTF-8 decoding the handler sends), and the body. -/
structure GetResponse where
  status : Nat
  location : Option Bytes
  body : String
deriving DecidableEq

/-- `do_GET` (server.py lines 74-96), after the identifier has been extracted
from the request path: 302 with `Location` on a hit, 404 with empty body on a
miss (the handler writes no body in either case). -/
def do_GET (cfg : Config) (s : StoreState) (content_id : String) : GetResponse × StoreState :=
  match load cfg s content_id with
  | some (content, s') => (⟨302, some content, ""⟩, s')
  | none => (⟨404, none, ""⟩, s)

/-- A POST response: status code and plain-text body. -/
structure PostResponse where
  status : Nat
  body : String
deriving DecidableEq

/-- UTF-8 encoding of one character (Python `str.encode()`). -/
def utf8EncodeChar (c : Char) : Bytes :=
  let n := c.toNat
  if n < 128 then [n]
  else if n < 2048 then [192 + n / 64, 128 + n % 64]
  else if n < 65536 then [224 + n / 4096, 128 + n / 64 % 64, 128 + n % 64]
  else [240 + n / 262144, 128 + n / 4096 % 64, 128 + n / 64 % 64, 128 + n % 64]

/-- UTF-8 encoding of a string (Python `str.encode()`). -/
def strEncode (s : String) : Bytes :=
  (s.toList.map utf8EncodeChar).flatten

/-- `do_POST` (server.py lines 98-113), with the body already decoded to the
submitted string and the stdlib URL round-trip `urlparse(...).geturl()`
abstracted as `reserialize`: if the re-serialized URL is non-empty, save the
UTF-8 bytes of the re-serialized URL (`url.encode()`, line 104) and answer
200 with body `http://<Host>/<digest>`; otherwise answer 400 `Invalid URL`. -/
def do_POST (provider : Provider) (reserialize : String → String) (cfg : Config)
    (s : StoreState) (host : String) (body : String) :
    Except GotoError (PostResponse × StoreState) :=
  let url := reserialize body
  if url = "" then
    .ok (⟨400, "Invalid URL"⟩, s)
  else
    match ContentHasher.save provider cfg s (strEncode url) with
    | .error e => .error e
    | .ok (content_hash, s') =>
        .ok (⟨200, "http://" ++ host ++ "/" ++ content_hash⟩, s')

/-- Characters allowed in a URL scheme after the first (letters, digits,
`+`, `-`, `.`), as in the stdlib URL parser. -/
def schemeChar (c : Char) : Bool :=
  c.isAlphanum || c = '+' || c = '-' || c = '.'

/-- Split a character list at the first occurrence of `sep`: returns the part
before it and `some` rest after it, or `none` when `sep` does not occur. -/
def splitFirst (sep : Char) : List Char → List Char × Option (List Char)
  | [] => ([], none)
  | c :: rest =>
    if c = sep then ([], some rest)
    else
      let r := splitFirst sep rest
      (c :: r.1, r.2)

/-- Take the network-location part: everything up to the first `/`, `?` or
`#`; returns `(netloc, rest-starting-at-the-delimiter)`. -/
def splitNetloc : List Char → List Char × List Char
  | [] => ([], [])
  | c :: rest =>
    if c = '/' || c = '?' || c = '#' then ([], c :: rest)
    else
      let r := splitNetloc rest
      (c :: r.1, r.2)

/-- Split off a leading `scheme:` when the part before the first `:` is a
valid scheme (first character a letter, the rest `schemeChar`s); the scheme
is lower-cased.  Otherwise the input is returned unchanged with no scheme. -/
def splitScheme (l : List Char) : List Char × List Char :=
  let p := splitFirst ':' l
  match p.2 with
  | none => ([], l)
  | some rest =>
    match p.1 with
    | [] => ([], l)
    | c0 :: cs =>
      if c0.isAlpha && (c0 :: cs).all schemeChar then ((c0 :: cs).map Char.toLower, rest)
      else ([], l)

/-- Split URL parameters from the last path segment: the part after the first
`;` at or after the last `/` (or the first `;` when there is no `/`);
returns `(path, params)` with empty `params` when there is no such `;`. -/
def splitParams (l : List Char) : List Char × List Char :=
  let start :=
    match l.reverse.findIdx? (fun c => c = '/') with
    | some r => l.length - 1 - r
    | none => 0
  match (l.drop start).findIdx? (fun c => c = ';') with
  | some i => (l.take (start + i), l.drop (start + i + 1))
  | none => (l, [])

/-- Modelled from the spec: the "standard URL-parsing rules" used by the
handler to "validate/normalize" the submitted string — the stdlib pipeline
`urlparse(s).geturl()` (the `urllib` library is external to the repository).
The string is split into scheme, network location, path, parameters, query
and fragment and re-assembled; re-assembly drops empty components, so e.g. a
trailing empty `?` or `#` marker disappears and the scheme is lower-cased. -/
def pyReserialize (s : String) : String :=
  let l := s.toList
  let sr := splitScheme l
  let scheme := sr.1
  let rest := sr.2
  let nr : List Char × List Char :=
    match rest with
    | '/' :: '/' :: r2 => splitNetloc r2
    | _ => ([], rest)
  let netloc := nr.1
  let rest2 := nr.2
  let fsplit := splitFirst '#' rest2
  let fragment := fsplit.2
  let qsplit := splitFirst '?' fsplit.1
  let query := qsplit.2
  let psplit := splitParams qsplit.1
  let path := psplit.1
  let params := psplit.2
  let url1 := if params ≠ [] then path ++ ';' :: params else path
  let url2 :=
    if netloc ≠ [] || url1.take 2 = ['/', '/'] then
      let u := if url1 ≠ [] && url1.take 1 ≠ ['/'] then '/' :: url1 else url1
      '/' :: '/' :: (netloc ++ u)
    else url1
  let url3 := if scheme ≠ [] then scheme ++ ':' :: url2 else url2
  let url4 :=
    match query with
    | some q => if q ≠ [] then url3 ++ '?' :: q else url3
    | none => url3
  let url5 :=
    match fragment with
    | some fr => if fr ≠ [] then url4 ++ '#' :: fr else url4
    | none => url4
  url5.asString

/-- One `save`/`load` operation on the content store, as issued by the
request handler. -/
inductive Op where
  | save (content : Bytes)
  | get (content_id : String)

/-- One handler step: a `save` (POST) mutates the store when the hash
succeeds, a `get` (GET) is `do_GET`'s state effect. -/
def stepOp (provider : Provider) (cfg : Config) (s : StoreState) : Op → StoreState
  | .save c =>
    match ContentHasher.save provider cfg s c with
    | .ok r => r.2
    | .error _ => s
  | .get content_id => (do_GET cfg s content_id).2

/-- Run a sequence of operations from the freshly-initialized store
(empty cache of the configured capacity, empty state directory). -/
def runOps (provider : Provider) (cfg : Config) (ops : List Op) : StoreState :=
  ops.foldl (stepOp provider cfg) ⟨⟨cfg.cache_size, []⟩, []⟩

/-- Disk is authoritative: every cache-resident identifier also exists on
disk, at its sharded path, with the same bytes. -/
def cacheBackedByDisk (cfg : Config) (s : StoreState) : Prop :=
  ∀ kv ∈ s.cache.cache,
    diskRead s.disk (file_location cfg.hash_algorithm cfg.hash_length kv.1) = some kv.2

deriving instance DecidableEq for Except

/-- A concrete hex-digest stub used to evaluate theorems on concrete inputs
(the real `sha256` lives in the external `hashlib`). -/
def f0 : Bytes → String := fun _ => "0123456789"

/-- A concrete digest provider recognizing only `sha256`, the default
configured algorithm. -/
def provider0 : Provider := fun a => if a = "sha256" then some f0 else none

/-- The default configuration (server.py `ContentHasher` defaults):
`sha256`, truncation length 5, cache capacity 100. -/
def cfg0 : Config := ⟨"sha256", 5, 100⟩

/-- A freshly-initialized store under the default configuration. -/
def state0 : StoreState := ⟨⟨100, []⟩, []⟩

/-! ### Helper lemmas about association lists -/

theorem mem_assocErase {α β : Type} [DecidableEq α] {k : α} {l : List (α × β)}
    {x : α × β} (h : x ∈ assocErase k l) : x ∈ l ∧ x.1 ≠ k := by
  induction l with
  | nil => cases h
  | cons p rest ih =>
    by_cases hpk : p.1 = k
    · simp only [assocErase, if_pos hpk] at h
      exact ⟨List.mem_cons_of_mem p (ih h).1, (ih h).2⟩
    · simp only [assocErase, if_neg hpk] at h
      rcases List.mem_cons.mp h with rfl | h2
      · exact ⟨List.mem_cons_self _ _, hpk⟩
      · exact ⟨List.mem_cons_of_mem p (ih h2).1, (ih h2).2⟩

theorem assocGet_append_of_forall_ne {α β : Type} [DecidableEq α] {k : α}
    {l : List (α × β)} (h : ∀ p ∈ l, p.1 ≠ k) (l' : List (α × β)) :
    assocGet k (l ++ l') = assocGet k l' := by
  induction l with
  | nil => rfl
  | cons p rest ih =>
    have hp : p.1 ≠ k := h p (List.mem_cons_self p rest)
    simp only [List.cons_append, assocGet, if_neg hp]
    exact ih (fun q hq => h q (List.mem_cons_of_mem p hq))

theorem assocGet_inserted {α β : Type} [DecidableEq α] (k : α) (v : β) (l : List (α × β)) :
    assocGet k (assocErase k l ++ [(k, v)]) = some v := by
  rw [assocGet_append_of_forall_ne (fun p hp => (mem_assocErase hp).2)]
  simp [assocGet]

theorem assocGet_erase_ne {α β : Type} [DecidableEq α] {k k' : α} (h : k' ≠ k)
    (l : List (α × β)) : assocGet k' (assocErase k l) = assocGet k' l := by
  induction l with
  | nil => rfl
  | cons p rest ih =>
    by_cases hpk : p.1 = k
    · rw [assocErase, if_pos hpk, ih, assocGet, if_neg (by rw [hpk]; exact fun e => h e.symm)]
    · by_cases hpk' : p.1 = k'
      · rw [assocErase, if_neg hpk, assocGet, if_pos hpk', assocGet, if_pos hpk']
      · rw [assocErase, if_neg hpk, assocGet, if_neg hpk', assocGet, if_neg hpk', ih]

theorem assocGet_mem {α β : Type} [DecidableEq α] {k : α} {l : List (α × β)} {v : β}
    (h : assocGet k l = some v) : (k, v) ∈ l := by
  induction l with
  | nil => cases h
  | cons p rest ih =>
    by_cases hpk : p.1 = k
    · rw [assocGet, if_pos hpk] at h
      exact List.mem_cons.mpr (Or.inl (by cases p; cases h; cases hpk; rfl))
    · rw [assocGet, if_neg hpk] at h
      exact List.mem_cons_of_mem p (ih h)

theorem length_assocErase_le {α β : Type} [DecidableEq α] (k : α) (l : List (α × β)) :
    (assocErase k l).length ≤ l.length := by
  induction l with
  | nil => exact Nat.le_refl 0
  | cons p rest ih =>
    by_cases hpk : p.1 = k
    · rw [assocErase, if_pos hpk]; exact Nat.le_succ_of_le ih
    · rw [assocErase, if_neg hpk]; exact Nat.succ_le_succ ih

theorem getLast?_append_single {α : Type} (l : List α) (a : α) :
    (l ++ [a]).getLast? = some a := by
  rw [List.getLast?_append_cons]
  rfl

/-! ### Helper lemmas about the LRU cache and the disk -/

theorem mem_setitem {s : LRU} {k : String} {v : Bytes} {x : String × Bytes}
    (h : x ∈ (LRU.setitem s k v).cache) : (x ∈ s.cache ∧ x.1 ≠ k) ∨ x = (k, v) := by
  simp only [LRU.setitem] at h
  have hx : x ∈ assocErase k s.cache ++ [(k, v)] := by
    by_cases hc : s.max_size ≤ (assocErase k s.cache ++ [(k, v)]).length
    · rw [if_pos hc] at h; exact List.drop_subset 1 _ h
    · rwa [if_neg hc] at h
  rcases List.mem_append.mp hx with h1 | h2
  · exact Or.inl (mem_assocErase h1)
  · exact Or.inr (by simpa using h2)

theorem assocGet_setitem_self {s : LRU} {k : String} {v w : Bytes}
    (h : assocGet k (LRU.setitem s k v).cache = some w) : w = v := by
  simp only [LRU.setitem] at h
  by_cases hc : s.max_size ≤ (assocErase k s.cache ++ [(k, v)]).length
  · rw [if_pos hc] at h
    cases he : assocErase k s.cache with
    | nil => rw [he] at h; cases h
    | cons a t =>
      rw [he, List.cons_append, List.drop_succ_cons, List.drop_zero] at h
      have ht : ∀ p ∈ t, p.1 ≠ k := by
        intro p hp
        exact (mem_assocErase (l := s.cache) (by rw [he]; exact List.mem_cons_of_mem a hp)).2
      rw [assocGet_append_of_forall_ne ht] at h
      simp [assocGet] at h
      exact h.symm
  · rw [if_neg hc, assocGet_inserted] at h
    cases h; rfl

theorem diskRead_write_self (d : Disk) (p : List String) (c : Bytes) :
    diskRead (diskWrite d p c) p = some c := by
  simp [diskRead, diskWrite, assocGet]

theorem diskRead_write_ne {p q : List String} (h : q ≠ p) (d : Disk) (c : Bytes) :
    diskRead (diskWrite d p c) q = diskRead d q := by
  simp only [diskRead, diskWrite, assocGet]
  rw [if_neg (fun e => h e.symm)]
  exact assocGet_erase_ne h d

theorem file_location_append (algorithm : String) (length : Nat) (hash_digest : String) :
    ∃ pre : List String, file_location algorithm length hash_digest = pre ++ [hash_digest] :=
  ⟨_, rfl⟩

theorem file_location_inj {alg : String} {L : Nat} {d1 d2 : String}
    (h : file_location alg L d1 = file_location alg L d2) : d1 = d2 := by
  obtain ⟨p1, h1⟩ := file_location_append alg L d1
  obtain ⟨p2, h2⟩ := file_location_append alg L d2
  rw [h1, h2] at h
  have := congrArg List.getLast? h
  rw [getLast?_append_single, getLast?_append_single] at this
  exact Option.some.inj this

/-! ### Helper lemmas about the path sharding scheme -/

theorem length_asString (l : List Char) : (List.asString l).length = l.length := rfl

theorem pySlice_length (s : String) (a b : Nat) :
    (pySlice s a b).length = min (b - a) (s.length - a) := by
  rw [pySlice, length_asString, List.length_take, List.length_drop]
  rfl

theorem foldl_append_map {α β : Type} (f : α → β) (l : List α) (init : List β) :
    l.foldl (fun p i => p ++ [f i]) init = init ++ l.map f := by
  induction l generalizing init with
  | nil => simp
  | cons a l ih => simp [List.foldl, ih]

theorem range_map_shardSegs_fuel (L : Nat) (d : String) :
    ∀ fuel i, L - 2 - i ≤ fuel →
      (List.range' i ((L - 2 - i + 1) / 2) 2).map (fun j => pySlice d j (j + 2)) =
        shardSegsSpec L d i := by
  intro fuel
  induction fuel with
  | zero =>
    intro i hi
    have hns : ¬ i < L - 2 := by omega
    have hz : (L - 2 - i + 1) / 2 = 0 := by omega
    rw [shardSegsSpec, if_neg hns, hz]
    rfl
  | succ n ih =>
    intro i hi
    by_cases hlt : i < L - 2
    · have hc : (L - 2 - i + 1) / 2 = (L - 2 - (i + 2) + 1) / 2 + 1 := by omega
      rw [shardSegsSpec, if_pos hlt, hc, List.range'_succ, List.map_cons, ih (i + 2) (by omega)]
    · have hz : (L - 2 - i + 1) / 2 = 0 := by omega
      rw [shardSegsSpec, if_neg hlt, hz]
      rfl

theorem shardSegsSpec_eq_range_map (L : Nat) (d : String) :
    (List.range' 0 ((L - 2 + 1) / 2) 2).map (fun j => pySlice d j (j + 2)) =
      shardSegsSpec L d 0 := by
  have := range_map_shardSegs_fuel L d (L - 2) 0 (by omega)
  simpa using this

theorem shardSegsSpec_length_two_fuel (L : Nat) (d : String) (hL : L ≤ d.length) :
    ∀ fuel i, L - 2 - i ≤ fuel → ∀ seg ∈ shardSegsSpec L d i, seg.length = 2 := by
  intro fuel
  induction fuel with
  | zero =>
    intro i hi seg hseg
    have hns : ¬ i < L - 2 := by omega
    rw [shardSegsSpec, if_neg hns] at hseg
    cases hseg
  | succ n ih =>
    intro i hi seg hseg
    by_cases hlt : i < L - 2
    · rw [shardSegsSpec, if_pos hlt] at hseg
      rcases List.mem_cons.mp hseg with rfl | h2
      · rw [pySlice_length]
        omega
      · exact ih (i + 2) (by omega) seg h2
    · rw [shardSegsSpec, if_neg hlt] at hseg
      cases hseg

/-! ### Claim theorems -/

/-- C1: for every byte content `c`, after `save(c)` returns digest `d`, a load
of `d` returns exactly `c` (whether the cache still holds `d` or the read
falls back to the sharded on-disk file, which also holds `c`). -/
theorem save_load_round_trip (provider : Provider) (cfg : Config) (f : Bytes → String)
    (hf : provider cfg.hash_algorithm = some f) (s : StoreState) (c : Bytes)
    (d : String) (s' : StoreState)
    (hsave : ContentHasher.save provider cfg s c = .ok (d, s')) :
    (load cfg s' d).map Prod.fst = some c
    ∧ diskRead s'.disk (file_location cfg.hash_algorithm cfg.hash_length d) = some c := by
  have hh : ContentHasher.hash provider cfg c =
      .ok (pySlice (f c) 0 cfg.hash_length) := by
    simp [ContentHasher.hash, hf]
  rw [ContentHasher.save, hh] at hsave
  simp only [Except.ok.injEq, Prod.mk.injEq] at hsave
  obtain ⟨hd, hs'⟩ := hsave
  subst hs'
  subst hd
  generalize pySlice (f c) 0 cfg.hash_length = dd
  refine ⟨?_, diskRead_write_self ..⟩
  cases hga : assocGet dd (LRU.setitem s.cache dd c).cache with
  | some w =>
    have hw : w = c := assocGet_setitem_self hga
    subst hw
    simp [load, LRU.getitem, hga]
  | none =>
    simp [load, LRU.getitem, hga, diskRead_write_self]

/-- C1 witness: a concrete save of the byte content `[7]` followed by a load
of the returned digest gives back `[7]`. -/
theorem save_load_round_trip_witness :
    (load cfg0 ⟨⟨100, [("01234", [7])]⟩, [(["sha256", "l5", "01", "23", "01234"], [7])]⟩
      "01234").map Prod.fst = some [7] :=
  (save_load_round_trip provider0 cfg0 f0 rfl state0 [7] "01234"
    ⟨⟨100, [("01234", [7])]⟩, [(["sha256", "l5", "01", "23", "01234"], [7])]⟩ (by decide)).1

/-- C2 counterexample: with capacity 2, after inserting `A, B, C` in order the
key `B` is NOT resident (the claim says `{B, C}` remain), because
`__setitem__` evicts as soon as the size after insertion reaches `max_size`. -/
theorem lru_cap2_counterexample :
    (LRU.applyPuts ⟨2, []⟩ [("A", [1]), ("B", [2]), ("C", [3])]).contains "B" = false := by
  decide

/-- C2 amended: with capacity 2, inserting `A, B, C` in order leaves exactly
`{C}` resident; `A` and `B` are both evicted (eviction triggers at size ≥ 2,
so the cache retains at most one entry). -/
theorem lru_cap2_insert_three :
    (LRU.applyPuts ⟨2, []⟩ [("A", [1]), ("B", [2]), ("C", [3])]).cache = [("C", [3])]
    ∧ (LRU.applyPuts ⟨2, []⟩ [("A", [1]), ("B", [2]), ("C", [3])]).contains "A" = false
    ∧ (LRU.applyPuts ⟨2, []⟩ [("A", [1]), ("B", [2]), ("C", [3])]).contains "B" = false
    ∧ (LRU.applyPuts ⟨2, []⟩ [("A", [1]), ("B", [2]), ("C", [3])]).contains "C" = true := by
  decide

/-- C3: `put(key, value)` inserts (or overwrites) the entry and leaves it
most-recently-used; the least-recently-used (front) entry is evicted exactly
when the size immediately after insertion is at least `max_size`; on a state
within the bound, the transient size stays at most `max_size` and the
resulting size is strictly below it. -/
theorem lru_put_spec (s : LRU) (k : String) (v : Bytes)
    (hlt : s.cache.length < s.max_size) :
    assocGet k (assocErase k s.cache ++ [(k, v)]) = some v
    ∧ (assocErase k s.cache ++ [(k, v)]).getLast? = some (k, v)
    ∧ (LRU.setitem s k v).cache =
        (if s.max_size ≤ (assocErase k s.cache ++ [(k, v)]).length
          then (assocErase k s.cache ++ [(k, v)]).drop 1
          else assocErase k s.cache ++ [(k, v)])
    ∧ (assocErase k s.cache ++ [(k, v)]).length ≤ s.max_size
    ∧ (LRU.setitem s k v).cache.length < s.max_size := by
  have hlen : (assocErase k s.cache ++ [(k, v)]).length ≤ s.max_size := by
    rw [List.length_append]
    have := length_assocErase_le k s.cache
    simp only [List.length_cons, List.length_nil]
    omega
  refine ⟨assocGet_inserted k v s.cache, getLast?_append_single _ _, rfl, hlen, ?_⟩
  simp only [LRU.setitem]
  by_cases hc : s.max_size ≤ (assocErase k s.cache ++ [(k, v)]).length
  · rw [if_pos hc, List.length_drop]
    omega
  · rw [if_neg hc]
    omega

/-- C3 witness: a put of `A` into an empty capacity-2 cache keeps the size
below the capacity. -/
theorem lru_put_spec_witness : (LRU.setitem ⟨2, []⟩ "A" [1]).cache.length < 2 :=
  (lru_put_spec ⟨2, []⟩ "A" [1] (by decide)).2.2.2.2

/-- C4 counterexample: with capacity 2, after `put(A), put(B)` the read of `A`
already fails (`A` was evicted when `B`'s insertion reached the capacity), and
after the subsequent `put(C)` the key `A` is not resident — contradicting the
claim that the read succeeds, `B` is evicted and `A` remains. -/
theorem lru_cap2_promote_counterexample :
    (LRU.setitem (LRU.setitem ⟨2, []⟩ "A" [1]) "B" [2]).getitem "A" = none
    ∧ (LRU.setitem (LRU.setitem (LRU.setitem ⟨2, []⟩ "A" [1]) "B" [2]) "C" [3]).contains "A"
        = false := by
  decide

/-- C4 amended: with capacity 2, `put(A)` then `put(B)` already evicts `A`
(so the read of `A` fails with a miss and promotes nothing), and `put(C)`
then evicts `B`, leaving exactly `{C}` resident. -/
theorem lru_cap2_promote_actual :
    (LRU.setitem (LRU.setitem ⟨2, []⟩ "A" [1]) "B" [2]).cache = [("B", [2])]
    ∧ (LRU.setitem (LRU.setitem ⟨2, []⟩ "A" [1]) "B" [2]).getitem "A" = none
    ∧ (LRU.setitem (LRU.setitem (LRU.setitem ⟨2, []⟩ "A" [1]) "B" [2]) "C" [3]).cache
        = [("C", [3])] := by
  decide

/-- C5: the sharding function produces `<alg>/l<L>/` followed by the
2-character shard slices `digest[i:i+2]` for `i = 0, 2, 4, ...` while
`i < L - 2` and then the full digest; each shard segment has length exactly 2
when the digest is at least `L` long; for `L ≤ 2` there are no shard
segments; and for `L = 5`, digest `"abcde"` the path is
`<alg>/l5/ab/cd/abcde`. -/
theorem file_location_spec (alg : String) (L : Nat) (d : String) (h : L ≤ d.length) :
    file_location alg L d = [alg, "l" ++ toString L] ++ shardSegsSpec L d 0 ++ [d]
    ∧ (∀ seg ∈ shardSegsSpec L d 0, seg.length = 2)
    ∧ (L ≤ 2 → shardSegsSpec L d 0 = [])
    ∧ file_location "sha256" 5 "abcde" = ["sha256", "l5", "ab", "cd", "abcde"] := by
  refine ⟨?_, ?_, ?_, by decide⟩
  · simp only [file_location, pyRange]
    rw [foldl_append_map]
    rw [show (L - 2 - 0 + 2 - 1) / 2 = (L - 2 + 1) / 2 from by omega]
    rw [shardSegsSpec_eq_range_map, List.append_assoc]
  · exact shardSegsSpec_length_two_fuel L d h (L - 2) 0 (by omega)
  · intro hL2
    rw [shardSegsSpec, if_neg (by omega)]

/-- C5 witness: the concrete instance of the claim at `L = 5`,
digest `"abcde"`. -/
theorem file_location_spec_witness :
    file_location "sha256" 5 "abcde" = ["sha256", "l5", "ab", "cd", "abcde"] :=
  (file_location_spec "sha256" 5 "abcde" (by decide)).2.2.2

/-- C6 counterexample: posting the body `http://a/b?` stores the UTF-8 bytes
of the re-serialized URL `http://a/b` (the stdlib round-trip drops the empty
query marker), which differ from the bytes of the original submitted string —
contradicting "calls save on the UTF-8 bytes of the original". -/
theorem post_saves_original_counterexample :
    do_POST provider0 pyReserialize cfg0 state0 "h" "http://a/b?" =
      .ok (⟨200, "http://h/01234"⟩,
        ⟨⟨100, [("01234", strEncode "http://a/b")]⟩,
         [(["sha256", "l5", "01", "23", "01234"], strEncode "http://a/b")]⟩)
    ∧ strEncode "http://a/b" ≠ strEncode "http://a/b?" := by
  decide

/-- C6 amended: for every POST body whose URL parse/re-serialize yields a
non-empty string, the handler calls `save` on the UTF-8 bytes of the
RE-SERIALIZED string, and answers 200 with plain-text body
`http://<Host>/<digest>` where `<digest>` is the value `save` returned. -/
theorem post_saves_reserialized (provider : Provider) (reserialize : String → String)
    (cfg : Config) (f : Bytes → String) (hf : provider cfg.hash_algorithm = some f)
    (s : StoreState) (host body : String) (hne : reserialize body ≠ "") :
    ∃ d s', ContentHasher.save provider cfg s (strEncode (reserialize body)) = .ok (d, s')
      ∧ do_POST provider reserialize cfg s host body =
          .ok (⟨200, "http://" ++ host ++ "/" ++ d⟩, s') := by
  have hh : ContentHasher.hash provider cfg (strEncode (reserialize body)) =
      .ok (pySlice (f (strEncode (reserialize body))) 0 cfg.hash_length) := by
    simp [ContentHasher.hash, hf]
  simp only [do_POST, if_neg hne, ContentHasher.save, hh]
  exact ⟨_, _, rfl, rfl⟩

/-- C6 witness: a concrete POST whose re-serialization (here the identity)
is non-empty is saved and answered with `http://<host>/<digest>`. -/
theorem post_saves_reserialized_witness :
    ∃ d s', ContentHasher.save provider0 cfg0 state0
        (strEncode ((fun x => x) "http://a/b")) = .ok (d, s')
      ∧ do_POST provider0 (fun x => x) cfg0 state0 "h" "http://a/b" =
          .ok (⟨200, "http://" ++ "h" ++ "/" ++ d⟩, s') :=
  post_saves_reserialized provider0 (fun x => x) cfg0 f0 rfl state0 "h" "http://a/b"
    (by decide)

/-- C7 counterexample: constructing the store with the unrecognized algorithm
name `blake9` succeeds (construction stores the fields and cannot fail), and
the `UnsupportedAlgorithm` failure first arises when `hash`/`save` is invoked
on a request — contradicting "raised at startup, when the Content Store is
constructed". -/
theorem unsupported_algorithm_counterexample :
    ContentHasher.init "blake9" 5 100 = (⟨"blake9", 5, 100⟩, ⟨⟨100, []⟩, []⟩)
    ∧ ContentHasher.hash provider0 ⟨"blake9", 5, 100⟩ [7] = .error .unsupportedAlgorithm
    ∧ ContentHasher.save provider0 ⟨"blake9", 5, 100⟩ ⟨⟨100, []⟩, []⟩ [7]
        = .error .unsupportedAlgorithm := by
  decide

/-- C7 amended: when the configured algorithm name is not recognized by the
digest provider, construction nevertheless succeeds (it merely stores the
configuration), and the `UnsupportedAlgorithm` failure is raised per-request,
whenever `hash` or `save` is invoked. -/
theorem unsupported_algorithm_at_request (provider : Provider) (alg : String)
    (len csz : Nat) (content : Bytes) (halg : provider alg = none) :
    (ContentHasher.init alg len csz).1 = ⟨alg, len, csz⟩
    ∧ ContentHasher.hash provider (ContentHasher.init alg len csz).1 content
        = .error .unsupportedAlgorithm
    ∧ ContentHasher.save provider (ContentHasher.init alg len csz).1
        (ContentHasher.init alg len csz).2 content = .error .unsupportedAlgorithm := by
  refine ⟨rfl, ?_, ?_⟩ <;>
    simp [ContentHasher.init, ContentHasher.hash, ContentHasher.save, halg]

/-- C7 witness: a provider recognizing nothing fails on a concrete hash
request while construction returned normally. -/
theorem unsupported_algorithm_at_request_witness :
    (ContentHasher.init "x" 5 100).1 = ⟨"x", 5, 100⟩
    ∧ ContentHasher.hash (fun _ => none) (ContentHasher.init "x" 5 100).1 [1]
        = .error .unsupportedAlgorithm
    ∧ ContentHasher.save (fun _ => none) (ContentHasher.init "x" 5 100).1
        (ContentHasher.init "x" 5 100).2 [1] = .error .unsupportedAlgorithm :=
  unsupported_algorithm_at_request (fun _ => none) "x" 5 100 [1] rfl

/-- Each handler step preserves "every cached identifier is backed by an
on-disk file with the same bytes". -/
theorem stepOp_preserves (provider : Provider) (cfg : Config) {s : StoreState}
    (hs : cacheBackedByDisk cfg s) (op : Op) :
    cacheBackedByDisk cfg (stepOp provider cfg s op) := by
  cases op with
  | save c =>
    cases hh : ContentHasher.hash provider cfg c with
    | error e =>
      simpa [stepOp, ContentHasher.save, hh] using hs
    | ok dd =>
      intro kv hkv
      simp only [stepOp, ContentHasher.save, hh] at hkv ⊢
      rcases mem_setitem hkv with ⟨hmem, hne⟩ | rfl
      · rw [diskRead_write_ne (fun hpq => hne (file_location_inj hpq))]
        exact hs kv hmem
      · exact diskRead_write_self ..
  | get cid =>
    cases hget : s.cache.getitem cid with
    | some r =>
      obtain ⟨w, cache'⟩ := r
      have hga : assocGet cid s.cache.cache = some w ∧
          cache' = ⟨s.cache.max_size, assocErase cid s.cache.cache ++ [(cid, w)]⟩ := by
        rw [LRU.getitem] at hget
        cases hg : assocGet cid s.cache.cache with
        | none => rw [hg] at hget; cases hget
        | some v =>
          rw [hg] at hget
          simp only [Option.some.injEq, Prod.mk.injEq] at hget
          obtain ⟨hvw, hcache⟩ := hget
          subst hvw
          exact ⟨rfl, hcache.symm⟩
      intro kv hkv
      simp only [stepOp, do_GET, load, hget, hga.2] at hkv ⊢
      rcases List.mem_append.mp hkv with h1 | h2
      · exact hs kv (mem_assocErase h1).1
      · have : kv = (cid, w) := by simpa using h2
        subst this
        exact hs (cid, w) (assocGet_mem hga.1)
    | none =>
      cases hd : diskRead s.disk (file_location cfg.hash_algorithm cfg.hash_length cid) with
      | some b =>
        intro kv hkv
        simp only [stepOp, do_GET, load, hget, hd] at hkv ⊢
        rcases mem_setitem hkv with ⟨hmem, _⟩ | rfl
        · exact hs kv hmem
        · exact hd
      | none =>
        simpa [stepOp, do_GET, load, hget, hd] using hs

/-- C8: in every state reachable from the freshly-initialized store by any
sequence of save and load operations, every identifier resident in the cache
also exists on disk at its sharded path with the same bytes — the cache is
never the sole holder of an entry. -/
theorem cache_backed_by_disk (provider : Provider) (cfg : Config) (ops : List Op) :
    cacheBackedByDisk cfg (runOps provider cfg ops) := by
  have general : ∀ (l : List Op) (s : StoreState), cacheBackedByDisk cfg s →
      cacheBackedByDisk cfg (l.foldl (stepOp provider cfg) s) := by
    intro l
    induction l with
    | nil => exact fun s hs => hs
    | cons op rest ih => exact fun s hs => ih _ (stepOp_preserves provider cfg hs op)
  exact general ops _ (fun kv hkv => absurd hkv (List.not_mem_nil kv))

/-- C9: a GET for an identifier absent from both the cache and the on-disk
store answers 404 with an empty body (and leaves the store unchanged). -/
theorem get_missing_returns_404 (cfg : Config) (s : StoreState) (content_id : String)
    (hc : assocGet content_id s.cache.cache = none)
    (hd : diskRead s.disk (file_location cfg.hash_algorithm cfg.hash_length content_id)
      = none) :
    do_GET cfg s content_id = (⟨404, none, ""⟩, s) := by
  simp [do_GET, load, LRU.getitem, hc, hd]

/-- C9 witness: a GET on the freshly-initialized store answers 404 with an
empty body. -/
theorem get_missing_returns_404_witness :
    do_GET cfg0 state0 "zzzzz" = (⟨404, none, ""⟩, state0) :=
  get_missing_returns_404 cfg0 state0 "zzzzz" rfl rfl

/-- C10: with capacity 1 every put immediately evicts the entry it just
inserted, so after any sequence of puts from the empty cache nothing is
resident, membership is false for every key, every read fails, and any
further put still leaves the cache empty. -/
theorem cap1_cache_never_retains (ps : List (String × Bytes)) :
    (LRU.applyPuts ⟨1, []⟩ ps).cache = []
    ∧ (∀ k, (LRU.applyPuts ⟨1, []⟩ ps).contains k = false)
    ∧ (∀ k, (LRU.applyPuts ⟨1, []⟩ ps).getitem k = none)
    ∧ (∀ k v, (LRU.setitem (LRU.applyPuts ⟨1, []⟩ ps) k v).cache = []) := by
  have key : LRU.applyPuts ⟨1, []⟩ ps = ⟨1, []⟩ := by
    induction ps with
    | nil => rfl
    | cons p rest ih =>
      have h1 : LRU.setitem ⟨1, []⟩ p.1 p.2 = ⟨1, []⟩ := rfl
      simp only [LRU.applyPuts, List.foldl] at ih ⊢
      rw [h1, ih]
  rw [key]
  exact ⟨rfl, fun k => rfl, fun k => rfl, fun k v => rfl⟩

end Goto
